import Mathlib

/-!
Verification of Hatari's cycle-interrupt scheduler interface (cycInt.h) and
console output filter (console.c), shallowly embedded in Lean.

C `int` values that the claims restrict to non-negative ranges are modelled
as `Nat`, signed quantities (the VT52 cursor positions) as `Int`; the C
left/right shifts are `Nat.shiftLeft` / `Nat.shiftRight`.
-/

/-! ## Definitions: cycle-domain converter (cycInt.h) -/

/-- Cycle-domain tag `INT_CPU_CYCLE` from cycInt.h. -/
def INT_CPU_CYCLE : Nat := 1

/-- Cycle-domain tag `INT_MFP_CYCLE` from cycInt.h. -/
def INT_MFP_CYCLE : Nat := 2

/-- Cycle-domain tag `INT_CPU8_CYCLE` (boosted CPU clock) from cycInt.h. -/
def INT_CPU8_CYCLE : Nat := 3

/-- Conversion multiplier `INT_CPU_TO_INTERNAL` from cycInt.h. -/
def INT_CPU_TO_INTERNAL : Nat := 9600

/-- Conversion multiplier `INT_MFP_TO_INTERNAL` from cycInt.h. -/
def INT_MFP_TO_INTERNAL : Nat := 31333

/-- The macro `INT_CONVERT_TO_INTERNAL(cyc, type)` from cycInt.h, with the
global `nCpuFreqShift` passed explicitly. -/
def INT_CONVERT_TO_INTERNAL (cyc ty nCpuFreqShift : Nat) : Nat :=
  if ty = INT_CPU_CYCLE then cyc * INT_CPU_TO_INTERNAL
  else if ty = INT_MFP_CYCLE then (cyc * INT_MFP_TO_INTERNAL) <<< nCpuFreqShift
  else (cyc * INT_CPU_TO_INTERNAL) <<< nCpuFreqShift

/-- The macro `INT_CONVERT_FROM_INTERNAL(cyc, type)` from cycInt.h, with the
global `nCpuFreqShift` passed explicitly. -/
def INT_CONVERT_FROM_INTERNAL (cyc ty nCpuFreqShift : Nat) : Nat :=
  if ty = INT_CPU_CYCLE then cyc / INT_CPU_TO_INTERNAL
  else if ty = INT_MFP_CYCLE then
    ((cyc + INT_MFP_TO_INTERNAL - 1) / INT_MFP_TO_INTERNAL) >>> nCpuFreqShift
  else (cyc / INT_CPU_TO_INTERNAL) >>> nCpuFreqShift

/-! ## Definitions: console output filter (console.c) -/

/-- Atari-to-ASCII table for control characters 0x00..0x1F (`map_0_31` in
console.c); `'\x08'` is the backspace character `'\b'`. -/
def map_0_31 : List Char :=
  ['.', '.', '.', '.', '.', '.', '.', '.',
   '\x08', '\t', '\n', '.', '.', '\r', '.', '.',
   '0', '1', '2', '3', '4', '5', '6', '7',
   '8', '9', '.', '.', '.', '.', '.', '.']

/-- Atari-to-ASCII table for characters 0x80..0xFF (`map_128_255` in
console.c). -/
def map_128_255 : List Char :=
  ['C', 'U', 'e', 'a', 'a', 'a', 'a', 'c',
   'e', 'e', 'e', 'i', 'i', 'i', 'A', 'A',
   'E', 'a', 'A', 'o', 'o', 'o', 'u', 'u',
   'y', 'o', 'u', 'c', '.', 'Y', 'B', 'f',
   'a', 'i', 'o', 'u', 'n', 'N', 'a', 'o',
   '?', '.', '.', '.', '.', 'i', '<', '>',
   'a', 'o', 'O', 'o', 'o', 'O', 'A', 'A',
   'O', '"', '\'', '.', '.', 'C', 'R', '.',
   'j', 'J', '.', '.', '.', '.', '.', '.',
   '.', '.', '.', '.', '.', '.', '.', '.',
   '.', '.', '.', '.', '.', '.', '.', '.',
   '.', '.', '.', '.', '.', '.', '^', '.',
   '.', '.', '.', '.', '.', '.', '.', '.',
   '.', '.', '.', '.', '.', '.', '.', '.',
   '.', '.', '.', '.', '.', '.', '.', '.',
   '.', '.', '.', '.', '.', '.', '.', '.']

/-- `map_character` from console.c.  The argument is the `Uint8` value; the
result is the single byte written with `fputc`, or `none` if a table access
would be out of bounds. -/
def map_character (value : Nat) : Option Char :=
  if value < 32 then map_0_31.get? value
  else if value > 127 then map_128_255.get? (value - 128)
  else some (Char.ofNat value)

/-- The VT52 escape-sequence kind (`escape_type` enum in `vt52_emu`). -/
inductive EscType where
  | escNone
  | escPosition
deriving DecidableEq

/-- The static state of `vt52_emu` in console.c. -/
structure Vt52State where
  escape_index : Int
  escape_target : Int
  hpos_host : Int
  hpos_tos : Int
  need_nl : Bool
  escape_type : EscType
deriving DecidableEq

/-- A run of `n` spaces, as printed by `fprintf(stderr, "%*s", n, "")` for
positive `n`. -/
def spaces (n : Int) : List Char := List.replicate n.toNat ' '

/-- The C expression `(h + 8) & 0xfff0` on a 32-bit two's-complement `int`,
as used for tab stops in `vt52_emu`. -/
def tabAlign (h : Int) : Int := (((h + 8).emod 4294967296).toNat &&& 0xfff0 : Nat)

/-- End-of-escape-sequence handling in `vt52_emu` (the
`if (escape_type == ESCAPE_POSITION) ... escape_target = 0; return;` block):
the final byte of an ESC Y sequence sets `hpos_tos` clamped to 0..79 and
moves the host cursor forward with spaces, or requests a deferred newline
for backwards movement. -/
def vt52_escape_end (s : Vt52State) (value : Nat) (out : List Char) :
    Vt52State × List Char :=
  if s.escape_type = .escPosition then
    let tos : Int := (value : Int) - 32
    let tos := if tos > 79 then 79 else if tos < 0 then 0 else tos
    if tos > s.hpos_host then
      ({ s with hpos_tos := tos, hpos_host := tos, escape_target := 0 },
       out ++ spaces (tos - s.hpos_host))
    else if tos < s.hpos_host then
      ({ s with hpos_tos := tos, need_nl := true, escape_target := 0 }, out)
    else
      ({ s with hpos_tos := tos, escape_target := 0 }, out)
  else
    ({ s with escape_target := 0 }, out)

/-- Host cursor movement and character output at the end of `vt52_emu`
(the final `switch (value)` plus the `map_character` call). -/
def vt52_host_move (s : Vt52State) (value : Nat) (out : List Char) :
    Vt52State × List Char :=
  let s :=
    if value = 8 then { s with hpos_host := s.hpos_host - 1 }
    else if value = 9 then { s with hpos_host := tabAlign s.hpos_host }
    else if value = 13 ∨ value = 10 then { s with hpos_host := 0 }
    else { s with hpos_host := s.hpos_host + 1 }
  (s, out ++ (map_character value).toList)

/-- `vt52_emu` from console.c: processes one byte, returning the new static
state and the bytes written to the host console. -/
def vt52_emu (s : Vt52State) (value : Nat) : Vt52State × List Char :=
  if s.escape_target ≠ 0 then
    let s := { s with escape_index := s.escape_index + 1 }
    if s.escape_index = 1 then
      if value = 69 then
        vt52_escape_end { s with hpos_host := 0 } value ['\n']
      else if value = 98 ∨ value = 99 then
        ({ s with escape_target := 2 }, [])
      else if value = 89 then
        ({ s with escape_type := .escPosition, escape_target := 3 }, [])
      else
        vt52_escape_end s value []
    else if s.escape_index < s.escape_target then
      (s, [])
    else
      vt52_escape_end s value []
  else if value = 27 then
    ({ s with escape_type := .escNone, escape_target := 1, escape_index := 0 }, [])
  else if s.need_nl then
    if value = 32 then ({ s with hpos_tos := s.hpos_tos + 1 }, [])
    else if value = 8 then ({ s with hpos_tos := s.hpos_tos - 1 }, [])
    else if value = 9 then ({ s with hpos_tos := tabAlign s.hpos_tos }, [])
    else
      let s := if value = 13 ∨ value = 10 then { s with hpos_tos := 0 } else s
      if 0 < s.hpos_tos ∧ s.hpos_tos < 80 then
        vt52_host_move { s with hpos_host := s.hpos_tos, need_nl := false } value
          ('\n' :: spaces s.hpos_tos)
      else
        vt52_host_move { s with hpos_host := 0, need_nl := false } value ['\n']
  else
    vt52_host_move s value []

/-! ## Definitions: cycle-interrupt scheduler model

The `interrupt_id` enumeration and the operation signatures are from
cycInt.h; the behaviour of the pending-event table itself (cycInt.c) is not
part of the available sources, so it is modelled from the spec. -/

/-- The `interrupt_id` handler enumeration from cycInt.h (the
`MAX_INTERRUPTS` sentinel is kept as a separate constant below). -/
inductive interrupt_id where
  | INTERRUPT_NULL
  | INTERRUPT_VIDEO_VBL
  | INTERRUPT_VIDEO_HBL
  | INTERRUPT_VIDEO_ENDLINE
  | INTERRUPT_MFP_MAIN_TIMERA
  | INTERRUPT_MFP_MAIN_TIMERB
  | INTERRUPT_MFP_MAIN_TIMERC
  | INTERRUPT_MFP_MAIN_TIMERD
  | INTERRUPT_MFP_TT_TIMERA
  | INTERRUPT_MFP_TT_TIMERB
  | INTERRUPT_MFP_TT_TIMERC
  | INTERRUPT_MFP_TT_TIMERD
  | INTERRUPT_ACIA_IKBD
  | INTERRUPT_IKBD_RESETTIMER
  | INTERRUPT_IKBD_AUTOSEND
  | INTERRUPT_DMASOUND_MICROWIRE
  | INTERRUPT_CROSSBAR_25MHZ
  | INTERRUPT_CROSSBAR_32MHZ
  | INTERRUPT_FDC
  | INTERRUPT_BLITTER
  | INTERRUPT_MIDI
deriving DecidableEq

/-- The numeric value of each `interrupt_id` enumerator (its position in the
cycInt.h enumeration). -/
def interruptIndex : interrupt_id → Nat
  | .INTERRUPT_NULL => 0
  | .INTERRUPT_VIDEO_VBL => 1
  | .INTERRUPT_VIDEO_HBL => 2
  | .INTERRUPT_VIDEO_ENDLINE => 3
  | .INTERRUPT_MFP_MAIN_TIMERA => 4
  | .INTERRUPT_MFP_MAIN_TIMERB => 5
  | .INTERRUPT_MFP_MAIN_TIMERC => 6
  | .INTERRUPT_MFP_MAIN_TIMERD => 7
  | .INTERRUPT_MFP_TT_TIMERA => 8
  | .INTERRUPT_MFP_TT_TIMERB => 9
  | .INTERRUPT_MFP_TT_TIMERC => 10
  | .INTERRUPT_MFP_TT_TIMERD => 11
  | .INTERRUPT_ACIA_IKBD => 12
  | .INTERRUPT_IKBD_RESETTIMER => 13
  | .INTERRUPT_IKBD_AUTOSEND => 14
  | .INTERRUPT_DMASOUND_MICROWIRE => 15
  | .INTERRUPT_CROSSBAR_25MHZ => 16
  | .INTERRUPT_CROSSBAR_32MHZ => 17
  | .INTERRUPT_FDC => 18
  | .INTERRUPT_BLITTER => 19
  | .INTERRUPT_MIDI => 20

/-- `MAX_INTERRUPTS` from cycInt.h. -/
def MAX_INTERRUPTS : Nat := 21

/-- All handler identities, in enumeration order. -/
def allInterrupts : List interrupt_id :=
  [.INTERRUPT_NULL, .INTERRUPT_VIDEO_VBL, .INTERRUPT_VIDEO_HBL,
   .INTERRUPT_VIDEO_ENDLINE, .INTERRUPT_MFP_MAIN_TIMERA,
   .INTERRUPT_MFP_MAIN_TIMERB, .INTERRUPT_MFP_MAIN_TIMERC,
   .INTERRUPT_MFP_MAIN_TIMERD, .INTERRUPT_MFP_TT_TIMERA,
   .INTERRUPT_MFP_TT_TIMERB, .INTERRUPT_MFP_TT_TIMERC,
   .INTERRUPT_MFP_TT_TIMERD, .INTERRUPT_ACIA_IKBD,
   .INTERRUPT_IKBD_RESETTIMER, .INTERRUPT_IKBD_AUTOSEND,
   .INTERRUPT_DMASOUND_MICROWIRE, .INTERRUPT_CROSSBAR_25MHZ,
   .INTERRUPT_CROSSBAR_32MHZ, .INTERRUPT_FDC, .INTERRUPT_BLITTER,
   .INTERRUPT_MIDI]

/-- Modelled from the spec: the pending-event table of cycInt.c (not under
src/).  One slot per handler identity holding the remaining canonical-tick
countdown (`none` = inactive; the spec's delta chain is represented by the
absolute remaining ticks it encodes), plus the CPU-frequency shift. -/
structure CycIntState where
  slots : interrupt_id → Option Nat
  nCpuFreqShift : Nat

/-- Modelled from the spec: the handlers that fire during one `advance` call
over `elapsed` canonical ticks — every armed handler whose remaining ticks
are ≤ `elapsed`, in ascending due-time order with ties broken by ascending
handler-identity enumeration order (spec §3, §4.2, §5). -/
def firedList (s : CycIntState) (elapsed : Nat) : List interrupt_id :=
  (List.range (elapsed + 1)).flatMap
    (fun t => allInterrupts.filter (fun h => decide (s.slots h = some t)))

/-- Modelled from the spec: one `advance(elapsed_ticks)` call of the
Dispatcher (cycInt.c, not under src/): returns the handlers fired during the
call (each fired event is consumed) and the table with the remaining
countdowns decremented. -/
def advance (s : CycIntState) (elapsed : Nat) : List interrupt_id × CycIntState :=
  (firedList s elapsed,
   { s with
     slots := fun h =>
       match s.slots h with
       | some r => if r ≤ elapsed then none else some (r - elapsed)
       | none => none })

/-- Modelled from the spec: `CycInt_AddAbsoluteInterrupt` (cycInt.c, not
under src/) converts the duration to canonical ticks and inserts/replaces
the handler's entry so it fires that many ticks from now (spec §4.2). -/
def CycInt_AddAbsoluteInterrupt (s : CycIntState) (CycleTime CycleType : Nat)
    (Handler : interrupt_id) : CycIntState :=
  { s with
    slots := fun h =>
      if h = Handler then
        some (INT_CONVERT_TO_INTERNAL CycleTime CycleType s.nCpuFreqShift)
      else s.slots h }

/-- A sequence of `advance` calls; the result is the list of fired-handler
lists, one per call. -/
def runAdvances (s : CycIntState) : List Nat → List (List interrupt_id)
  | [] => []
  | k :: ks => firedList s k :: runAdvances (advance s k).2 ks

/-- Modelled from the spec: the handler identity at the head of the due
queue (`active_now` / `CycInt_GetActiveInt`): the armed entry with the
smallest remaining tick count, ties broken by enumeration order. -/
def nextFire (s : CycIntState) : Option interrupt_id :=
  (allInterrupts.foldl
    (fun acc h =>
      match s.slots h, acc with
      | some r, none => some (r, h)
      | some r, some (q, g) => if r < q then some (r, h) else some (q, g)
      | none, acc => acc) none).map Prod.snd

/-- Modelled from the spec: a captured snapshot (spec §4.3, §6): one
`(active, remaining_absolute_ticks)` record per handler identity in
enumeration order, followed by the frequency shift. -/
structure CycIntSnapshot where
  entries : List (Bool × Nat)
  shiftVal : Nat

/-- Modelled from the spec: the save direction of
`CycInt_MemorySnapShot_Capture` (cycInt.c, not under src/): writes every
entry's active flag and absolute remaining ticks in enumeration order, plus
the frequency shift. -/
def CycInt_MemorySnapShot_Capture (s : CycIntState) : CycIntSnapshot :=
  ⟨allInterrupts.map (fun h =>
      match s.slots h with
      | some r => (true, r)
      | none => (false, 0)),
   s.nCpuFreqShift⟩

/-- Modelled from the spec: the restore direction of
`CycInt_MemorySnapShot_Capture` (cycInt.c, not under src/): rebuilds the
table from the per-handler records, rejecting a snapshot whose structural
size does not match the handler-identity count. -/
def CycInt_MemorySnapShot_Restore (snap : CycIntSnapshot) : Option CycIntState :=
  if snap.entries.length = allInterrupts.length then
    some
      { slots := fun h =>
          match snap.entries.get? (interruptIndex h) with
          | some (true, r) => some r
          | _ => none,
        nCpuFreqShift := snap.shiftVal }
  else none

/-- A concrete scheduler state used to instantiate the C4 theorem: only the
VBL handler is armed, with 100 remaining ticks. -/
def exampleStateC4 : CycIntState :=
  ⟨fun h => if h = .INTERRUPT_VIDEO_VBL then some 100 else none, 0⟩

/-- A concrete scheduler state used to instantiate the C5 theorem: the VBL
handler and MFP timer A are both armed with 50 remaining ticks. -/
def exampleStateC5 : CycIntState :=
  ⟨fun h =>
     if h = .INTERRUPT_VIDEO_VBL ∨ h = .INTERRUPT_MFP_MAIN_TIMERA then some 50
     else none, 0⟩

/-! ## Theorems -/

theorem to_internal_cpu (c s : Nat) :
    INT_CONVERT_TO_INTERNAL c INT_CPU_CYCLE s = c * 9600 := rfl

theorem to_internal_mfp (c s : Nat) :
    INT_CONVERT_TO_INTERNAL c INT_MFP_CYCLE s = (c * 31333) <<< s := rfl

theorem to_internal_cpu8 (c s : Nat) :
    INT_CONVERT_TO_INTERNAL c INT_CPU8_CYCLE s = (c * 9600) <<< s := rfl

theorem from_internal_cpu (c s : Nat) :
    INT_CONVERT_FROM_INTERNAL c INT_CPU_CYCLE s = c / 9600 := rfl

theorem from_internal_mfp (c s : Nat) :
    INT_CONVERT_FROM_INTERNAL c INT_MFP_CYCLE s = ((c + 31332) / 31333) >>> s := rfl

theorem from_internal_cpu8 (c s : Nat) :
    INT_CONVERT_FROM_INTERNAL c INT_CPU8_CYCLE s = (c / 9600) >>> s := rfl

/-- Claim C1, as stated by the spec, fails on the code: for the boosted-CPU
domain (`INT_CPU8_CYCLE`) the conversion from internal ticks truncates rather
than rounding up.  At 9599 internal ticks (just under one CPU cycle) with
frequency shift 0, the code returns 0, while ceiling division by the CPU
multiplier 9600 would return 1. -/
theorem c1_cpu8_not_ceiling :
    INT_CONVERT_FROM_INTERNAL 9599 INT_CPU8_CYCLE 0 = 0 ∧
    ¬ (9599 ≤ 9600 * INT_CONVERT_FROM_INTERNAL 9599 INT_CPU8_CYCLE 0) ∧
    (9599 + 9600 - 1) / 9600 = 1 := by
  decide

/-- Claim C1 (amended): for every non-negative tick count and frequency shift,
`INT_CONVERT_FROM_INTERNAL` truncates (floor division by the CPU multiplier)
for the nominal-CPU-clock domain, rounds up (ceiling division by the MFP
multiplier, followed by the frequency right-shift) for the MFP domain, and
truncates (floor division by the CPU multiplier, followed by the frequency
right-shift) for the boosted-CPU domain. -/
theorem c1_from_internal_rounding (cyc s : Nat) :
    (9600 * INT_CONVERT_FROM_INTERNAL cyc INT_CPU_CYCLE s ≤ cyc ∧
     cyc < 9600 * (INT_CONVERT_FROM_INTERNAL cyc INT_CPU_CYCLE s + 1)) ∧
    (cyc ≤ 31333 * INT_CONVERT_FROM_INTERNAL cyc INT_MFP_CYCLE 0 ∧
     31333 * INT_CONVERT_FROM_INTERNAL cyc INT_MFP_CYCLE 0 < cyc + 31333 ∧
     INT_CONVERT_FROM_INTERNAL cyc INT_MFP_CYCLE s =
       INT_CONVERT_FROM_INTERNAL cyc INT_MFP_CYCLE 0 / 2 ^ s) ∧
    (9600 * INT_CONVERT_FROM_INTERNAL cyc INT_CPU8_CYCLE 0 ≤ cyc ∧
     cyc < 9600 * (INT_CONVERT_FROM_INTERNAL cyc INT_CPU8_CYCLE 0 + 1) ∧
     INT_CONVERT_FROM_INTERNAL cyc INT_CPU8_CYCLE s =
       INT_CONVERT_FROM_INTERNAL cyc INT_CPU8_CYCLE 0 / 2 ^ s) := by
  simp only [from_internal_cpu, from_internal_mfp, from_internal_cpu8,
    Nat.shiftRight_eq_div_pow, pow_zero, Nat.div_one]
  have h1 := Nat.div_add_mod cyc 9600
  have h2 := Nat.mod_lt cyc (show 0 < 9600 by norm_num)
  have h3 := Nat.div_add_mod (cyc + 31332) 31333
  have h4 := Nat.mod_lt (cyc + 31332) (show 0 < 31333 by norm_num)
  refine ⟨⟨by omega, by omega⟩, ⟨by omega, by omega, by trivial⟩,
    ⟨by omega, by omega, by trivial⟩⟩

/-- Claim C2: converting a duration to internal ticks and back reproduces the
duration exactly for the nominal-CPU-clock domain, and yields a value ≥ the
duration for the MFP and boosted-CPU domains, for every duration and every
frequency shift. -/
theorem c2_roundtrip (d s : Nat) :
    INT_CONVERT_FROM_INTERNAL (INT_CONVERT_TO_INTERNAL d INT_CPU_CYCLE s) INT_CPU_CYCLE s = d ∧
    d ≤ INT_CONVERT_FROM_INTERNAL (INT_CONVERT_TO_INTERNAL d INT_MFP_CYCLE s) INT_MFP_CYCLE s ∧
    d ≤ INT_CONVERT_FROM_INTERNAL (INT_CONVERT_TO_INTERNAL d INT_CPU8_CYCLE s) INT_CPU8_CYCLE s := by
  have hp : (0:Nat) < 2 ^ s := Nat.pos_pow_of_pos s (by norm_num)
  refine ⟨?_, ?_, ?_⟩
  · rw [to_internal_cpu, from_internal_cpu, Nat.mul_div_cancel d (by norm_num)]
  · rw [to_internal_mfp, from_internal_mfp, Nat.shiftLeft_eq, Nat.shiftRight_eq_div_pow]
    have : d * 31333 * 2 ^ s + 31332 = 31333 * (d * 2 ^ s) + 31332 := by ring
    rw [this, Nat.mul_add_div (by norm_num)]
    have : (31332:Nat) / 31333 = 0 := by norm_num
    rw [this, Nat.add_zero, Nat.mul_div_cancel d hp]
  · rw [to_internal_cpu8, from_internal_cpu8, Nat.shiftLeft_eq, Nat.shiftRight_eq_div_pow]
    have : d * 9600 * 2 ^ s = 9600 * (d * 2 ^ s) := by ring
    rw [this, Nat.mul_div_cancel_left _ (by norm_num), Nat.mul_div_cancel d hp]

/-- Claim C6: converting to internal ticks multiplies a nominal-CPU duration
by the CPU multiplier with no frequency shift applied, while MFP and
boosted-CPU durations are additionally left-shifted (multiplied by `2 ^ s`)
by the current frequency shift. -/
theorem c6_to_internal_shift (d s : Nat) :
    INT_CONVERT_TO_INTERNAL d INT_CPU_CYCLE s = d * 9600 ∧
    INT_CONVERT_TO_INTERNAL d INT_CPU_CYCLE s = INT_CONVERT_TO_INTERNAL d INT_CPU_CYCLE 0 ∧
    INT_CONVERT_TO_INTERNAL d INT_MFP_CYCLE s = d * 31333 * 2 ^ s ∧
    INT_CONVERT_TO_INTERNAL d INT_CPU8_CYCLE s = d * 9600 * 2 ^ s := by
  refine ⟨rfl, rfl, ?_, ?_⟩
  · rw [to_internal_mfp, Nat.shiftLeft_eq]
  · rw [to_internal_cpu8, Nat.shiftLeft_eq]

/-- Claim C7: an MFP duration of 10 units converts to exactly twice as many
internal ticks at frequency shift 1 as at frequency shift 0. -/
theorem c7_mfp_double :
    INT_CONVERT_TO_INTERNAL 10 INT_MFP_CYCLE 1 =
      2 * INT_CONVERT_TO_INTERNAL 10 INT_MFP_CYCLE 0 := by
  decide

/-- Claim C8: the per-domain multipliers are fixed positive integers (one
nominal-CPU cycle and one MFP cycle each convert to an exact integer tick
count), and the CPU multiplier 9600 and the MFP multiplier 31333 are
coprime. -/
theorem c8_multipliers_coprime :
    0 < INT_CPU_TO_INTERNAL ∧ 0 < INT_MFP_TO_INTERNAL ∧
    INT_CONVERT_TO_INTERNAL 1 INT_CPU_CYCLE 0 = 9600 ∧
    INT_CONVERT_TO_INTERNAL 1 INT_MFP_CYCLE 0 = 31333 ∧
    Nat.gcd INT_CPU_TO_INTERNAL INT_MFP_TO_INTERNAL = 1 := by
  decide

set_option maxRecDepth 4096 in
/-- Claim C9: for every 8-bit input, `map_character` produces exactly one
output byte and every table access is in bounds: values below 32 index the
32-entry control table, values above 127 index the 128-entry high table at
position `value - 128`, and all other values are emitted unchanged. -/
theorem c9_map_character_total (v : Nat) (hv : v < 256) :
    (map_character v).isSome = true ∧
    map_0_31.length = 32 ∧ map_128_255.length = 128 ∧
    (v < 32 → map_character v = map_0_31.get? v) ∧
    (127 < v → map_character v = map_128_255.get? (v - 128)) ∧
    (32 ≤ v → v ≤ 127 → map_character v = some (Char.ofNat v)) := by
  revert hv
  revert v
  decide

/-- Concrete instance of `c9_map_character_total` at input 200 (an accented
character mapped through the high table). -/
theorem c9_map_character_total_witness :
    200 < 256 ∧
    ((map_character 200).isSome = true ∧
     map_0_31.length = 32 ∧ map_128_255.length = 128 ∧
     (200 < 32 → map_character 200 = map_0_31.get? 200) ∧
     (127 < 200 → map_character 200 = map_128_255.get? (200 - 128)) ∧
     (32 ≤ 200 → 200 ≤ 127 → map_character 200 = some (Char.ofNat 200))) :=
  ⟨by decide, c9_map_character_total 200 (by decide)⟩

/-- Claim C10: when `vt52_emu` processes the final byte of an ESC Y cursor
position sequence (state: `escape_target = 3`, `escape_index = 2`,
`escape_type = ESCAPE_POSITION`), the computed target horizontal position
`hpos_tos` is clamped to 0..79 before any cursor movement is applied: the
post-state `hpos_tos` equals the clamp of `value - 32`, lies in 0..79, and
the host-cursor movement decision is made with the clamped value. -/
theorem c10_vt52_position_clamped (s : Vt52State) (v : Nat)
    (ht : s.escape_target = 3) (hi : s.escape_index = 2)
    (hty : s.escape_type = .escPosition) :
    0 ≤ ((vt52_emu s v).1).hpos_tos ∧
    ((vt52_emu s v).1).hpos_tos ≤ 79 ∧
    ((vt52_emu s v).1).hpos_tos =
      (if (v : Int) - 32 > 79 then 79
       else if (v : Int) - 32 < 0 then 0 else (v : Int) - 32) ∧
    ((vt52_emu s v).1).hpos_host =
      (if ((vt52_emu s v).1).hpos_tos > s.hpos_host
       then ((vt52_emu s v).1).hpos_tos else s.hpos_host) := by
  have hne : s.escape_target ≠ 0 := by rw [ht]; decide
  have h1 : ¬ (s.escape_index + 1 = 1) := by rw [hi]; decide
  have h2 : ¬ (s.escape_index + 1 < s.escape_target) := by rw [hi, ht]; decide
  simp only [vt52_emu, hne, if_true, if_false, ite_not, h1, h2, ite_false,
    vt52_escape_end, hty, if_pos rfl]
  set tos : Int := (v : Int) - 32 with htos
  by_cases hb : tos > 79
  · simp only [if_pos hb]
    by_cases hh : (79 : Int) > s.hpos_host
    · simp only [if_pos hh]; refine ⟨by omega, by omega, by trivial, by simp [hh]⟩
    · simp only [if_neg hh]
      have : ¬ ((79:Int) < s.hpos_host) ∨ (79:Int) < s.hpos_host := by tauto
      by_cases hl : (79 : Int) < s.hpos_host
      · simp only [if_pos hl]; refine ⟨by omega, by omega, by trivial, by simp [hh]⟩
      · simp only [if_neg hl]; refine ⟨by omega, by omega, by trivial, by simp [hh]⟩
  · simp only [if_neg hb]
    by_cases hc : tos < 0
    · simp only [if_pos hc]
      by_cases hh : (0 : Int) > s.hpos_host
      · simp only [if_pos hh]; refine ⟨by omega, by omega, by trivial, by simp [hh]⟩
      · simp only [if_neg hh]
        by_cases hl : (0 : Int) < s.hpos_host
        · simp only [if_pos hl]; refine ⟨by omega, by omega, by trivial, by simp [hh]⟩
        · simp only [if_neg hl]; refine ⟨by omega, by omega, by trivial, by simp [hh]⟩
    · simp only [if_neg hc]
      by_cases hh : tos > s.hpos_host
      · simp only [if_pos hh]; refine ⟨by omega, by omega, by trivial, by simp [hh]⟩
      · simp only [if_neg hh]
        by_cases hl : tos < s.hpos_host
        · simp only [if_pos hl]; refine ⟨by omega, by omega, by trivial, by simp [hh]⟩
        · simp only [if_neg hl]; refine ⟨by omega, by omega, by trivial, by simp [hh]⟩

/-- Concrete instance of `c10_vt52_position_clamped`: final ESC Y byte 200
targets column 168, which is clamped to 79. -/
theorem c10_vt52_position_clamped_witness :
    ((⟨2, 3, 5, 0, false, .escPosition⟩ : Vt52State).escape_target = 3 ∧
     (⟨2, 3, 5, 0, false, .escPosition⟩ : Vt52State).escape_index = 2 ∧
     (⟨2, 3, 5, 0, false, .escPosition⟩ : Vt52State).escape_type = .escPosition) ∧
    (0 ≤ ((vt52_emu ⟨2, 3, 5, 0, false, .escPosition⟩ 200).1).hpos_tos ∧
     ((vt52_emu ⟨2, 3, 5, 0, false, .escPosition⟩ 200).1).hpos_tos ≤ 79 ∧
     ((vt52_emu ⟨2, 3, 5, 0, false, .escPosition⟩ 200).1).hpos_tos =
       (if (200 : Int) - 32 > 79 then 79
        else if (200 : Int) - 32 < 0 then 0 else (200 : Int) - 32) ∧
     ((vt52_emu ⟨2, 3, 5, 0, false, .escPosition⟩ 200).1).hpos_host =
       (if ((vt52_emu ⟨2, 3, 5, 0, false, .escPosition⟩ 200).1).hpos_tos >
           (⟨2, 3, 5, 0, false, .escPosition⟩ : Vt52State).hpos_host
        then ((vt52_emu ⟨2, 3, 5, 0, false, .escPosition⟩ 200).1).hpos_tos
        else (⟨2, 3, 5, 0, false, .escPosition⟩ : Vt52State).hpos_host)) :=
  ⟨⟨rfl, rfl, rfl⟩, c10_vt52_position_clamped ⟨2, 3, 5, 0, false, .escPosition⟩ 200 rfl rfl rfl⟩

theorem capture_entries_get (s : CycIntState) (h : interrupt_id) :
    (CycInt_MemorySnapShot_Capture s).entries.get? (interruptIndex h) =
      some (match s.slots h with | some r => (true, r) | none => (false, 0)) := by
  cases h <;> rfl

/-- Claim C3: capturing a snapshot and restoring it with no intervening
`advance` succeeds and yields a table whose per-handler remaining ticks, the
next-fire handler identity, and the frequency shift are identical to the
state at capture time. -/
theorem c3_snapshot_roundtrip (s : CycIntState) :
    ∃ s', CycInt_MemorySnapShot_Restore (CycInt_MemorySnapShot_Capture s) = some s' ∧
      (∀ h, s'.slots h = s.slots h) ∧ nextFire s' = nextFire s ∧
      s'.nCpuFreqShift = s.nCpuFreqShift := by
  obtain ⟨sl, sh⟩ := s
  refine ⟨⟨sl, sh⟩, ?_, fun h => rfl, rfl, rfl⟩
  have hlen : (CycInt_MemorySnapShot_Capture ⟨sl, sh⟩).entries.length =
      allInterrupts.length := by
    simp [CycInt_MemorySnapShot_Capture]
  unfold CycInt_MemorySnapShot_Restore
  rw [if_pos hlen]
  refine congrArg some ?_
  congr 1
  funext h
  rw [capture_entries_get ⟨sl, sh⟩ h]
  cases hsl : sl h with
  | none => simp [hsl]
  | some r => simp [hsl]

theorem mem_allInterrupts (h : interrupt_id) : h ∈ allInterrupts := by
  cases h <;> decide

theorem count_allInterrupts (h : interrupt_id) : allInterrupts.count h = 1 := by
  cases h <;> decide

theorem slots_eq_of_mem_firedList {s : CycIntState} {k : Nat} {h : interrupt_id}
    (hm : h ∈ firedList s k) : ∃ t, t ≤ k ∧ s.slots h = some t := by
  rcases List.mem_flatMap.mp hm with ⟨t, ht, hf⟩
  rcases List.mem_filter.mp hf with ⟨-, hp⟩
  exact ⟨t, Nat.lt_succ_iff.mp (List.mem_range.mp ht), of_decide_eq_true hp⟩

theorem mem_firedList {s : CycIntState} {k : Nat} {h : interrupt_id} {r : Nat}
    (hr : s.slots h = some r) : h ∈ firedList s k ↔ r ≤ k := by
  constructor
  · intro hm
    rcases slots_eq_of_mem_firedList hm with ⟨t, htk, hst⟩
    rw [hr] at hst
    injection hst with he
    omega
  · intro hk
    refine List.mem_flatMap.mpr ⟨r, List.mem_range.mpr (Nat.lt_succ_of_le hk), ?_⟩
    exact List.mem_filter.mpr ⟨mem_allInterrupts h, decide_eq_true hr⟩

theorem not_mem_firedList_none {s : CycIntState} {k : Nat} {h : interrupt_id}
    (hr : s.slots h = none) : h ∉ firedList s k := by
  intro hm
  rcases slots_eq_of_mem_firedList hm with ⟨t, -, hst⟩
  rw [hr] at hst
  exact Option.noConfusion hst

theorem count_firedList {s : CycIntState} {k : Nat} {h : interrupt_id} {r : Nat}
    (hr : s.slots h = some r) :
    (firedList s k).count h = if r ≤ k then 1 else 0 := by
  have main : ∀ ts : List Nat,
      (ts.flatMap
        (fun t => allInterrupts.filter (fun g => decide (s.slots g = some t)))).count h
        = (ts.map (fun t => if r = t then 1 else 0)).sum := by
    intro ts
    induction ts with
    | nil => rfl
    | cons t ts ih =>
      rw [List.flatMap_cons, List.count_append, ih, List.map_cons, List.sum_cons]
      congr 1
      by_cases he : r = t
      · subst he
        rw [List.count_filter (p := fun g => decide (s.slots g = some r)) (a := h)
          (decide_eq_true hr), count_allInterrupts, if_pos rfl]
      · rw [if_neg he]
        refine List.count_eq_zero.mpr ?_
        intro hm
        rcases List.mem_filter.mp hm with ⟨-, hp⟩
        have hst := of_decide_eq_true hp
        rw [hr] at hst
        injection hst with he2
        exact he he2
  have sums : ∀ n : Nat,
      ((List.range n).map (fun t => if r = t then 1 else 0)).sum
        = if r < n then 1 else 0 := by
    intro n
    induction n with
    | zero => rfl
    | succ m ih =>
      rw [List.range_succ, List.map_append, List.sum_append, ih]
      simp only [List.map_cons, List.map_nil, List.sum_cons, List.sum_nil]
      split_ifs <;> omega
  rw [firedList, main, sums]
  split_ifs <;> omega

theorem advance_slots_none {s : CycIntState} {k : Nat} {h : interrupt_id}
    (hr : s.slots h = none) : ((advance s k).2).slots h = none := by
  simp [advance, hr]

theorem advance_slots_le {s : CycIntState} {k : Nat} {h : interrupt_id} {r : Nat}
    (hr : s.slots h = some r) (hk : r ≤ k) : ((advance s k).2).slots h = none := by
  simp [advance, hr, hk]

theorem advance_slots_gt {s : CycIntState} {k : Nat} {h : interrupt_id} {r : Nat}
    (hr : s.slots h = some r) (hk : ¬ r ≤ k) :
    ((advance s k).2).slots h = some (r - k) := by
  simp [advance, hr, hk]

theorem runAdvances_count_none {h : interrupt_id} :
    ∀ (ks : List Nat) (s : CycIntState), s.slots h = none →
      ((runAdvances s ks).flatten).count h = 0
  | [], _, _ => rfl
  | k :: ks, s, hr => by
    simp only [runAdvances, List.flatten_cons, List.count_append]
    rw [List.count_eq_zero.mpr (not_mem_firedList_none hr),
      runAdvances_count_none ks _ (advance_slots_none hr)]

theorem runAdvances_count {h : interrupt_id} :
    ∀ (ks : List Nat) (s : CycIntState) (r : Nat), s.slots h = some r →
      ((runAdvances s ks).flatten).count h = if ks ≠ [] ∧ r ≤ ks.sum then 1 else 0
  | [], _, _, _ => by simp [runAdvances]
  | k :: ks, s, r, hr => by
    simp only [runAdvances, List.flatten_cons, List.count_append, List.sum_cons]
    by_cases hk : r ≤ k
    · rw [count_firedList hr, if_pos hk,
        runAdvances_count_none ks _ (advance_slots_le hr hk)]
      have hc : ((k :: ks : List Nat) ≠ [] ∧ r ≤ k + ks.sum) := ⟨by simp, by omega⟩
      rw [if_pos hc]
    · rw [count_firedList hr, if_neg hk,
        runAdvances_count ks _ (r - k) (advance_slots_gt hr hk)]
      have hne : (k :: ks : List Nat) ≠ [] := by simp
      by_cases hks : ks = []
      · subst hks
        simp only [ne_eq, not_true_eq_false, false_and, if_false, List.sum_nil]
        rw [if_neg]
        omega
      · split_ifs with h1 h2 h2 <;> first
          | rfl
          | (exfalso; revert h1 h2; simp [hne, hks]; omega)

theorem runAdvances_not_mem_none {h : interrupt_id} :
    ∀ (ks : List Nat) (s : CycIntState), s.slots h = none → ∀ i : Nat,
      h ∉ (runAdvances s ks).getD i []
  | [], _, _, i => by simp [runAdvances]
  | k :: ks, s, hr, 0 => by
    simp only [runAdvances, List.getD_cons_zero]
    exact not_mem_firedList_none hr
  | k :: ks, s, hr, (i+1) => by
    simp only [runAdvances, List.getD_cons_succ]
    exact runAdvances_not_mem_none ks _ (advance_slots_none hr) i

theorem runAdvances_mem {h : interrupt_id} :
    ∀ (ks : List Nat) (s : CycIntState) (r : Nat), s.slots h = some r → ∀ i : Nat,
      (h ∈ (runAdvances s ks).getD i [] ↔
        (i < ks.length ∧ r ≤ ((ks.take (i+1)).sum) ∧
          (((ks.take i).sum < r) ∨ i = 0)))
  | [], s, r, hr, i => by simp [runAdvances]
  | k :: ks, s, r, hr, 0 => by
    simp only [runAdvances, List.getD_cons_zero, List.length_cons,
      List.take_succ_cons, List.take_zero, List.sum_cons, List.sum_nil]
    rw [mem_firedList hr]
    constructor
    · intro hk
      refine ⟨by omega, by omega, by simp⟩
    · rintro ⟨-, h2, -⟩
      omega
  | k :: ks, s, r, hr, (i+1) => by
    simp only [runAdvances, List.getD_cons_succ, List.length_cons,
      List.take_succ_cons, List.sum_cons]
    by_cases hk : r ≤ k
    · have hnm := runAdvances_not_mem_none ks _ (advance_slots_le hr hk) i
      constructor
      · intro hm
        exact absurd hm hnm
      · rintro ⟨-, -, h3 | h3⟩ <;> exfalso <;> omega
    · rw [runAdvances_mem ks _ (r - k) (advance_slots_gt hr hk) i]
      have hz : i = 0 → (ks.take i).sum = 0 := by rintro rfl; simp
      omega

/-- Claim C4: from any state in which handler `h` is armed with `r` remaining
ticks, over any sequence of `advance` calls `h` fires exactly once if the
total elapsed ticks reach `r` (and never otherwise), and it fires exactly at
the first `advance` call whose cumulative elapsed ticks reach or exceed `r`,
never at an earlier call. -/
theorem c4_fires_once_at_first (s : CycIntState) (h : interrupt_id) (r : Nat)
    (ks : List Nat) (hr : s.slots h = some r) :
    ((runAdvances s ks).flatten).count h = (if ks ≠ [] ∧ r ≤ ks.sum then 1 else 0) ∧
    ∀ i : Nat, (h ∈ (runAdvances s ks).getD i [] ↔
      (i < ks.length ∧ r ≤ ((ks.take (i+1)).sum) ∧
        (((ks.take i).sum < r) ∨ i = 0))) :=
  ⟨runAdvances_count ks s r hr, fun i => runAdvances_mem ks s r hr i⟩

/-- Concrete instance of `c4_fires_once_at_first`: the VBL handler armed for
100 ticks fires exactly once over `advance 40; advance 60; advance 5`, namely
at the second call (index 1), where the cumulative elapsed first reaches
100. -/
theorem c4_fires_once_at_first_witness :
    exampleStateC4.slots .INTERRUPT_VIDEO_VBL = some 100 ∧
    ((runAdvances exampleStateC4 [40, 60, 5]).flatten).count .INTERRUPT_VIDEO_VBL
      = (if ([40, 60, 5] : List Nat) ≠ [] ∧ 100 ≤ ([40, 60, 5] : List Nat).sum
         then 1 else 0) ∧
    .INTERRUPT_VIDEO_VBL ∈ (runAdvances exampleStateC4 [40, 60, 5]).getD 1 [] :=
  ⟨by decide,
   (c4_fires_once_at_first exampleStateC4 .INTERRUPT_VIDEO_VBL 100 [40, 60, 5]
     (by decide)).1,
   ((c4_fires_once_at_first exampleStateC4 .INTERRUPT_VIDEO_VBL 100 [40, 60, 5]
     (by decide)).2 1).mpr (by decide)⟩

theorem allInterrupts_pairwiseIdx :
    allInterrupts.Pairwise (fun a b => interruptIndex a < interruptIndex b) := by
  decide

theorem pair_sublist_of_pairwise {h1 h2 : interrupt_id} :
    ∀ {l : List interrupt_id},
      l.Pairwise (fun a b => interruptIndex a < interruptIndex b) →
      h1 ∈ l → h2 ∈ l → interruptIndex h1 < interruptIndex h2 →
      List.Sublist [h1, h2] l := by
  intro l
  induction l with
  | nil => intro _ m1; exact absurd m1 (List.not_mem_nil _)
  | cons a t ih =>
    intro hp m1 m2 hlt
    rcases List.pairwise_cons.mp hp with ⟨ha, ht⟩
    rcases List.mem_cons.mp m1 with rfl | m1t
    · rcases List.mem_cons.mp m2 with rfl | m2t
      · exact absurd hlt (lt_irrefl _)
      · exact List.Sublist.cons₂ h1 (List.singleton_sublist.mpr m2t)
    · rcases List.mem_cons.mp m2 with rfl | m2t
      · exact absurd (ha h1 m1t) (by omega)
      · exact List.Sublist.cons a (ih ht m1t m2t hlt)

theorem block_sublist_flatMap (f : Nat → List interrupt_id) :
    ∀ (ts : List Nat) (t : Nat), t ∈ ts → List.Sublist (f t) (ts.flatMap f)
  | [], t, ht => absurd ht (List.not_mem_nil _)
  | a :: ts, t, ht => by
    rw [List.flatMap_cons]
    rcases List.mem_cons.mp ht with rfl | hm
    · exact List.sublist_append_left _ _
    · exact (block_sublist_flatMap f ts t hm).trans (List.sublist_append_right _ _)

/-- Claim C5: whenever two handlers are armed so that they become due at the
same tick, and both are due within one `advance` call, they fire within that
call in ascending handler-identity enumeration order (lower-valued identity
first). -/
theorem c5_tie_break (s : CycIntState) (h1 h2 : interrupt_id) (d k : Nat)
    (hlt : interruptIndex h1 < interruptIndex h2)
    (hr1 : s.slots h1 = some d) (hr2 : s.slots h2 = some d) (hdk : d ≤ k) :
    List.Sublist [h1, h2] (advance s k).1 := by
  have hpair :=
    List.Pairwise.filter (R := fun a b => interruptIndex a < interruptIndex b)
      (fun g => decide (s.slots g = some d)) allInterrupts_pairwiseIdx
  have m1 : h1 ∈ allInterrupts.filter (fun g => decide (s.slots g = some d)) :=
    List.mem_filter.mpr ⟨mem_allInterrupts h1, decide_eq_true hr1⟩
  have m2 : h2 ∈ allInterrupts.filter (fun g => decide (s.slots g = some d)) :=
    List.mem_filter.mpr ⟨mem_allInterrupts h2, decide_eq_true hr2⟩
  have hs := pair_sublist_of_pairwise hpair m1 m2 hlt
  have hb := block_sublist_flatMap
    (fun t => allInterrupts.filter (fun g => decide (s.slots g = some t)))
    (List.range (k + 1)) d (List.mem_range.mpr (Nat.lt_succ_of_le hdk))
  exact hs.trans hb

/-- Concrete instance of `c5_tie_break`: VBL (identity 1) and MFP timer A
(identity 4) both armed with 50 remaining ticks fire in that order during a
single `advance 60`. -/
theorem c5_tie_break_witness :
    (interruptIndex .INTERRUPT_VIDEO_VBL < interruptIndex .INTERRUPT_MFP_MAIN_TIMERA ∧
     exampleStateC5.slots .INTERRUPT_VIDEO_VBL = some 50 ∧
     exampleStateC5.slots .INTERRUPT_MFP_MAIN_TIMERA = some 50 ∧ 50 ≤ 60) ∧
    List.Sublist [interrupt_id.INTERRUPT_VIDEO_VBL, .INTERRUPT_MFP_MAIN_TIMERA]
      (advance exampleStateC5 60).1 :=
  ⟨⟨by decide, by decide, by decide, by decide⟩,
   c5_tie_break exampleStateC5 .INTERRUPT_VIDEO_VBL .INTERRUPT_MFP_MAIN_TIMERA 50 60
     (by decide) (by decide) (by decide) (by decide)⟩
